import Mathlib

/-!
Verification of the portfolio-tracker Transaction Import & Position-State
Engine against its natural-language specification.

The Rust source is shallowly embedded: `rust_decimal::Decimal` (an exact
fixed-point decimal type) is modelled as the exact rationals `ℚ`;
`VecDeque` as `List` (front at the head); fallible code returns
`Except String`.  Database and network effects are made explicit:
the database is a `Db` value threaded through the functions, and the
quote/FX providers are oracle parameters.
-/

set_option maxRecDepth 4000
set_option linter.unusedVariables false

set_option allowUnsafeReducibility true
attribute [semireducible] Rat.add Rat.mul Rat.inv Rat.sub Rat.div

deriving instance DecidableEq for Except

namespace PortfolioTracker

/-! ## Decimal rounding

`rust_decimal`'s `round_dp` uses the `MidpointNearestEven` (banker's)
rounding strategy. -/

/-- Round a rational to the nearest integer, ties to the even neighbour
(banker's rounding, the default strategy of `Decimal::round_dp`). -/
def roundHalfEven (x : ℚ) : ℤ :=
  let n := ⌊x⌋
  let f := x - n
  if f < 1/2 then n
  else if 1/2 < f then n + 1
  else if 2 ∣ n then n else n + 1

/-- `Decimal::round_dp(dp)`: round to `dp` decimal places, ties to even. -/
def roundDp (dp : ℕ) (x : ℚ) : ℚ :=
  (roundHalfEven (x * 10 ^ dp) : ℚ) / 10 ^ dp

/-! ## Data model (src/src/models) -/

/-- `TransactionType` from src/src/models/transaction.rs. -/
inductive TransactionType where
  | Buy
  | Sell
  | Div
deriving DecidableEq, Repr

/-- `ApiProvider` (quote provider tag) as used in src/src/app/portfolio.rs. -/
inductive ApiProvider where
  | Av
  | Fmp
deriving DecidableEq, Repr

/-- `PositionState` from src/src/models/position_state.rs. -/
structure PositionState where
  cumulative_units : ℚ
  cumulative_cost : ℚ
  cost_of_units_sold : ℚ
deriving DecidableEq, Repr

/-- `TransactionGains` from src/src/models/transaction_gains.rs. -/
structure TransactionGains where
  realized_gains : ℚ
  dividends_collected : ℚ
deriving DecidableEq, Repr

/-- The resolved `Ticker` shape, reconstructed from its 7-argument
constructor calls in src/src/app/portfolio.rs (`get_existing_tickers`);
timestamps are abstracted to `ℤ`. -/
structure Ticker where
  symbol : String
  name : String
  currency : String
  exchange : String
  last_price : Option ℚ
  last_price_updated_at : Option ℤ
  api : ApiProvider
deriving DecidableEq, Repr

/-- `Transaction` from src/src/models/transaction.rs; `DateTime` is
abstracted to `ℤ`. -/
structure Transaction where
  transaction_no : ℤ
  date : ℤ
  transaction_type : TransactionType
  ticker : Ticker
  broker : String
  currency : String
  exchange_rate : ℚ
  quantity : ℚ
  price : ℚ
  fees : ℚ
  position_state : Option PositionState
  transaction_gains : Option TransactionGains
deriving DecidableEq, Repr

/-- `Transaction::get_amount` from src/src/models/transaction.rs:
`price * exchange_rate * quantity + fees`, negated for `Buy`. -/
def Transaction.get_amount (t : Transaction) : ℚ :=
  let amount := t.price * t.exchange_rate * t.quantity + t.fees
  if t.transaction_type = .Buy then -amount else amount

/-- `Transaction::get_quantity` from src/src/models/transaction.rs:
`quantity` for `Buy`, `-quantity` otherwise. -/
def Transaction.get_quantity (t : Transaction) : ℚ :=
  if t.transaction_type = .Buy then t.quantity else -t.quantity

/-! ## FIFO position-state calculator (src/src/app/calc.rs) -/

/-- The mutable state of the replay loop in `calculate_position_state`:
the FIFO queue of per-unit costs (front at the head), the
`cost_of_units_sold` of the element being processed, and the running
signed sum of quantities. -/
structure CalcState where
  queue : List ℚ
  cost_of_units_sold : ℚ
  cumulative_units : ℚ
deriving DecidableEq, Repr

/-- `i64::MAX`; `quantity.abs().floor().to_i64()` fails above this bound. -/
def i64Max : ℤ := 9223372036854775807

/-- One iteration of the `for i in 0..amounts.len()` loop of
`calculate_position_state` (src/src/app/calc.rs lines 33-79):
`cost_of_units_sold` is reset, a zero quantity is an error, a buy
(`amount < 0`) pushes `floor(|quantity|)` copies of `amount/quantity`,
a sell (`amount > 0`) pops that many entries summing them into
`cost_of_units_sold` and errors if the queue runs empty, and the queue
is drained when the cumulative quantity rounds to zero at 4 dp. -/
def calcStep (s : CalcState) (amount quantity : ℚ) : Except String CalcState :=
  if quantity = 0 then
    .error "Cannot calculate position state: quantity is zero at index"
  else if i64Max < ⌊|quantity|⌋ then
    .error "Failed to convert quantity to i64"
  else if amount < 0 then
    .ok ⟨s.queue ++ List.replicate (⌊|quantity|⌋).toNat (amount / quantity), 0,
         s.cumulative_units + quantity⟩
  else if 0 < amount then
    if s.queue.length < (⌊|quantity|⌋).toNat then
      .error "Cannot calculate position_state: trying to sell more units than available in queue"
    else
      .ok ⟨if roundDp 4 (s.cumulative_units + quantity) = 0 then []
           else s.queue.drop (⌊|quantity|⌋).toNat,
           (s.queue.take (⌊|quantity|⌋).toNat).sum,
           s.cumulative_units + quantity⟩
  else
    .ok ⟨s.queue, 0, s.cumulative_units + quantity⟩

/-- The replay loop: fold `calcStep` over the zipped element list,
propagating the first error. -/
def runCalc : CalcState → List (ℚ × ℚ) → Except String CalcState
  | s, [] => .ok s
  | s, p :: rest =>
    match calcStep s p.1 p.2 with
    | .error e => .error e
    | .ok s2 => runCalc s2 rest

/-- `calculate_position_state` from src/src/app/calc.rs: validates the
input shape, replays all elements, and returns
`(|cumulative_units|.round_dp(4), |queue sum|, |cost_of_units_sold|)`. -/
def calculate_position_state (amounts quantities : List ℚ) :
    Except String PositionState :=
  if amounts.length ≠ quantities.length then
    .error "Cannot calculate position state: amounts and quantities have different lengths"
  else if amounts.isEmpty then
    .error "Cannot calculate position state: empty amounts and quantities vectors"
  else
    match runCalc ⟨[], 0, 0⟩ (amounts.zip quantities) with
    | .error e => .error e
    | .ok s => .ok ⟨roundDp 4 |s.cumulative_units|, |s.queue.sum|, |s.cost_of_units_sold|⟩

/-- `calculate_transaction_gains` from src/src/app/calc.rs: realized
gains `|amount| - cost_of_units_sold` for `Sell`, dividends `amount`
for `Div`, zero otherwise. -/
def calculate_transaction_gains (t : Transaction) (ps : PositionState) :
    TransactionGains :=
  ⟨if t.transaction_type = .Sell then |t.get_amount| - ps.cost_of_units_sold else 0,
   if t.transaction_type = .Div then t.get_amount else 0⟩

/-! ## Basic facts about the rounding model -/

theorem roundHalfEven_intCast (n : ℤ) : roundHalfEven (n : ℚ) = n := by
  simp [roundHalfEven]

theorem roundDp_intCast (dp : ℕ) (n : ℤ) : roundDp dp (n : ℚ) = n := by
  unfold roundDp
  have h : ((n : ℚ) * 10 ^ dp) = ((n * 10 ^ dp : ℤ) : ℚ) := by push_cast; ring
  rw [h, roundHalfEven_intCast]
  have hpow : ((10 : ℚ) ^ dp) ≠ 0 := by positivity
  push_cast
  field_simp

theorem roundDp_natCast (dp : ℕ) (n : ℕ) : roundDp dp (n : ℚ) = n := by
  have h := roundDp_intCast dp (n : ℤ)
  push_cast at h
  exact h

theorem roundDp_zero (dp : ℕ) : roundDp dp 0 = 0 := by
  have h := roundDp_intCast dp 0
  simpa using h

/-! ## Claim C1: the concrete test scenario (src/src/test/calc.rs) -/

/-- C1: for amounts `[-1777.02, -1659.08, -2190.06, -1768.21, -1612.08,
2275.64]` and quantities `[20, 20, 20, 20, 20, -20]`, the FIFO
calculator returns `cumulative_units = 80.00`,
`cumulative_cost = 7229.43` and `cost_of_units_sold = 1777.02`
(the cost of the oldest 20-unit lot). -/
theorem c1_concrete_scenario :
    calculate_position_state
      [-(177702/100 : ℚ), -(165908/100), -(219006/100), -(176821/100),
        -(161208/100), 227564/100]
      [20, 20, 20, 20, 20, -20]
    = .ok ⟨80, 722943/100, 177702/100⟩ := by decide

/-! ## Claim C8: FIFO is order-dependent -/

/-- C8: swapping two buys with different unit costs changes
`cost_of_units_sold` on a subsequent partial sell: the calculator
matches sold units against the oldest lot first, not an average cost.
Buying one unit at 10 then one at 20 and selling one yields a cost of
units sold of 10; with the buys swapped it yields 20. -/
theorem c8_fifo_order_dependent :
    calculate_position_state [-10, -20, 15] [1, 1, -1] = .ok ⟨1, 20, 10⟩ ∧
    calculate_position_state [-20, -10, 15] [1, 1, -1] = .ok ⟨1, 10, 20⟩ ∧
    (10 : ℚ) ≠ 20 := by
  refine ⟨by decide, by decide, by decide⟩

/-! ## Claim C2: overselling is an error, not silently ignored -/

/-- C2 (counterexample): selling 2 units when only 1 whole unit is in
the queue makes `calculate_position_state` return an error — it does
not silently ignore the excess and return a `PositionState` as the
claim states. -/
theorem c2_counterexample :
    calculate_position_state [-10, 30] [1, -2] =
      .error "Cannot calculate position_state: trying to sell more units than available in queue" := by
  decide

/-- C2 (amended): whenever a sell element (`amount > 0`) would dispose
of more whole units than are currently in the lot queue, the replay
step fails with the "trying to sell more units than available in
queue" error instead of returning a state. -/
theorem c2_oversell_errors (s : CalcState) (a q : ℚ) (ha : 0 < a) (hq : q ≠ 0)
    (hbound : ⌊|q|⌋ ≤ i64Max) (hlen : s.queue.length < (⌊|q|⌋).toNat) :
    calcStep s a q =
      .error "Cannot calculate position_state: trying to sell more units than available in queue" := by
  unfold calcStep
  rw [if_neg hq, if_neg (not_lt.mpr hbound), if_neg (not_lt.mpr ha.le),
    if_pos ha, if_pos hlen]

/-- C2 (witness): a concrete instance of `c2_oversell_errors` — selling
one unit from an empty queue errors. -/
theorem c2_oversell_errors_witness :
    (0 : ℚ) < 1 ∧ (-1 : ℚ) ≠ 0 ∧ ⌊|(-1 : ℚ)|⌋ ≤ i64Max ∧
    (CalcState.mk [] 0 0).queue.length < (⌊|(-1 : ℚ)|⌋).toNat ∧
    calcStep ⟨[], 0, 0⟩ 1 (-1) =
      .error "Cannot calculate position_state: trying to sell more units than available in queue" :=
  ⟨by decide, by decide, by decide, by decide,
    c2_oversell_errors ⟨[], 0, 0⟩ 1 (-1) (by decide) (by decide) (by decide) (by decide)⟩

/-! ## Replay lemmas for all-buy prefixes -/

/-- The zipped element list of a run consisting of whole-unit buys:
each pair is an amount together with a natural quantity. -/
def buyPairs (l : List (ℚ × ℕ)) : List (ℚ × ℚ) :=
  l.map (fun p => (p.1, (p.2 : ℚ)))

/-- The FIFO queue contents produced by replaying whole-unit buys:
for each buy, `quantity` copies of its per-unit cost. -/
def buyQueue (l : List (ℚ × ℕ)) : List ℚ :=
  (l.map (fun p => List.replicate p.2 (p.1 / (p.2 : ℚ)))).flatten

theorem calcStep_buy (s : CalcState) (a : ℚ) (m : ℕ) (ha : a < 0) (hm : 1 ≤ m)
    (hb : (m : ℤ) ≤ i64Max) :
    calcStep s a (m : ℚ) =
      .ok ⟨s.queue ++ List.replicate m (a / (m : ℚ)), 0,
           s.cumulative_units + (m : ℚ)⟩ := by
  have hm0 : ((m : ℚ)) ≠ 0 := Nat.cast_ne_zero.mpr (by omega)
  have habs : |(m : ℚ)| = (m : ℚ) := abs_of_nonneg (by positivity)
  have hfl : ⌊|(m : ℚ)|⌋ = (m : ℤ) := by rw [habs]; exact Int.floor_natCast m
  simp [calcStep, hm0, hfl, not_lt.mpr hb, ha]

theorem runCalc_buys (l : List (ℚ × ℕ)) (s : CalcState)
    (h : ∀ p ∈ l, p.1 < 0 ∧ 1 ≤ p.2 ∧ (p.2 : ℤ) ≤ i64Max) :
    runCalc s (buyPairs l) =
      .ok ⟨s.queue ++ buyQueue l,
           if l.isEmpty then s.cost_of_units_sold else 0,
           s.cumulative_units + (((l.map Prod.snd).sum : ℕ) : ℚ)⟩ := by
  induction l generalizing s with
  | nil => simp [buyPairs, buyQueue, runCalc]
  | cons p rest ih =>
    obtain ⟨ha, hm, hb⟩ := h p (List.mem_cons_self p rest)
    have hrest := fun q hq => h q (List.mem_cons_of_mem p hq)
    simp only [buyPairs, List.map_cons, runCalc]
    rw [calcStep_buy s p.1 p.2 ha hm hb]
    simp only []
    rw [show buyPairs rest = rest.map (fun p => (p.1, (p.2 : ℚ))) from rfl] at ih
    rw [ih _ hrest]
    simp [buyQueue, List.append_assoc, add_assoc]

theorem buyQueue_sum (l : List (ℚ × ℕ)) (h : ∀ p ∈ l, 1 ≤ p.2) :
    (buyQueue l).sum = (l.map Prod.fst).sum := by
  induction l with
  | nil => simp [buyQueue]
  | cons p rest ih =>
    have hm : ((p.2 : ℚ)) ≠ 0 :=
      Nat.cast_ne_zero.mpr (by have := h p (List.mem_cons_self p rest); omega)
    have hrest := fun q hq => h q (List.mem_cons_of_mem p hq)
    simp only [buyQueue, List.map_cons, List.flatten_cons, List.sum_append,
      List.sum_replicate, nsmul_eq_mul]
    rw [mul_comm, div_mul_cancel₀ _ hm]
    rw [show (rest.map fun q => List.replicate q.2 (q.1 / (q.2 : ℚ))).flatten = buyQueue rest
      from rfl]
    rw [ih hrest]
    simp

theorem buyQueue_length (l : List (ℚ × ℕ)) :
    (buyQueue l).length = (l.map Prod.snd).sum := by
  simp [buyQueue, List.length_flatten, List.map_map, Function.comp_def]

theorem runCalc_append (xs ys : List (ℚ × ℚ)) (s : CalcState) :
    runCalc s (xs ++ ys) =
      match runCalc s xs with
      | .error e => .error e
      | .ok s2 => runCalc s2 ys := by
  induction xs generalizing s with
  | nil => simp [runCalc]
  | cons p rest ih =>
    simp only [List.cons_append, runCalc]
    cases calcStep s p.1 p.2 <;> simp [ih]

/-! ## Claim C6: all-buy inputs -/

theorem sum_fst_nonpos (l : List (ℚ × ℕ)) (h : ∀ p ∈ l, p.1 < 0) :
    (l.map Prod.fst).sum ≤ 0 := by
  induction l with
  | nil => simp
  | cons p rest ih =>
    have := h p (List.mem_cons_self p rest)
    have hr := ih fun q hq => h q (List.mem_cons_of_mem p hq)
    simp only [List.map_cons, List.sum_cons]
    linarith

theorem sum_map_abs_of_neg (l : List (ℚ × ℕ)) (h : ∀ p ∈ l, p.1 < 0) :
    (l.map fun p => |p.1|).sum = -((l.map Prod.fst).sum) := by
  induction l with
  | nil => simp
  | cons p rest ih =>
    have := h p (List.mem_cons_self p rest)
    have hr := ih fun q hq => h q (List.mem_cons_of_mem p hq)
    simp only [List.map_cons, List.sum_cons, hr, abs_of_neg this]
    ring

/-- C6 (amended): for every non-empty all-buy input (all amounts
negative) whose quantities are positive whole numbers of units (each
fitting an `i64`), the calculator succeeds with `cumulative_units` the
sum of the quantities and `cumulative_cost` the sum of `|amount|`. -/
theorem c6_all_buys (l : List (ℚ × ℕ)) (hne : l ≠ [])
    (h : ∀ p ∈ l, p.1 < 0 ∧ 1 ≤ p.2 ∧ (p.2 : ℤ) ≤ i64Max) :
    calculate_position_state (l.map Prod.fst) (l.map fun p => ((p.2 : ℕ) : ℚ)) =
      .ok ⟨(((l.map Prod.snd).sum : ℕ) : ℚ), (l.map fun p => |p.1|).sum, 0⟩ := by
  have hlen : (l.map Prod.fst).length = (l.map fun p => ((p.2 : ℕ) : ℚ)).length := by
    simp
  have hnem : ¬(l.map Prod.fst).isEmpty = true := by
    simp [List.isEmpty_iff, hne]
  unfold calculate_position_state
  rw [if_neg (by simp [hlen]), if_neg hnem]
  rw [List.zip_map']
  rw [show l.map (fun p => (p.1, (p.2 : ℚ))) = buyPairs l from rfl]
  rw [runCalc_buys l ⟨[], 0, 0⟩ h]
  simp only [List.nil_append, zero_add, ite_self, abs_zero, Except.ok.injEq,
    PositionState.mk.injEq]
  refine ⟨?_, ?_, trivial⟩
  · rw [abs_of_nonneg (by positivity), roundDp_natCast]
  · rw [buyQueue_sum l (fun p hp => (h p hp).2.1),
      abs_of_nonpos (sum_fst_nonpos l (fun p hp => (h p hp).1)),
      sum_map_abs_of_neg l (fun p hp => (h p hp).1)]

/-- C6 (counterexample): for the all-buy input `amounts = [-10]`,
`quantities = [0.5]` the claim asserts `cumulative_cost = |-10| = 10`,
but the calculator floor-truncates the fractional quantity to zero
whole units, pushes nothing onto the lot queue, and returns
`cumulative_cost = 0`. -/
theorem c6_counterexample :
    calculate_position_state [-10] [1/2] = .ok ⟨1/2, 0, 0⟩ ∧ (0 : ℚ) ≠ 10 :=
  ⟨by decide, by decide⟩

/-- C6 (witness): a concrete two-buy instance of `c6_all_buys`. -/
theorem c6_all_buys_witness :
    ([((-10 : ℚ), (1 : ℕ)), (-20, 2)] ≠ []) ∧
    (∀ p ∈ [((-10 : ℚ), (1 : ℕ)), (-20, 2)], p.1 < 0 ∧ 1 ≤ p.2 ∧ (p.2 : ℤ) ≤ i64Max) ∧
    calculate_position_state ([((-10 : ℚ), (1 : ℕ)), (-20, 2)].map Prod.fst)
        ([((-10 : ℚ), (1 : ℕ)), (-20, 2)].map fun p => ((p.2 : ℕ) : ℚ)) =
      .ok ⟨((([((-10 : ℚ), (1 : ℕ)), (-20, 2)].map Prod.snd).sum : ℕ) : ℚ),
           ([((-10 : ℚ), (1 : ℕ)), (-20, 2)].map fun p => |p.1|).sum, 0⟩ :=
  ⟨by decide, by decide, c6_all_buys _ (by decide) (by decide)⟩

/-! ## Claim C7: buy-then-full-sell -/

/-- C7 (amended): for a non-empty sequence of whole-unit buys followed
by one final sell of the entire cumulative position (sell amount
positive, sell quantity the negated sum of the buy quantities), the
calculator succeeds and both `cumulative_units` and `cumulative_cost`
are zero — the lot queue is fully drained. -/
theorem c7_full_sell (l : List (ℚ × ℕ)) (a : ℚ) (hne : l ≠ [])
    (h : ∀ p ∈ l, p.1 < 0 ∧ 1 ≤ p.2 ∧ (p.2 : ℤ) ≤ i64Max)
    (ha : 0 < a) (hS : (((l.map Prod.snd).sum : ℕ) : ℤ) ≤ i64Max) :
    ∃ ps, calculate_position_state (l.map Prod.fst ++ [a])
        (l.map (fun p => ((p.2 : ℕ) : ℚ)) ++ [-((((l.map Prod.snd).sum : ℕ)) : ℚ)]) = .ok ps ∧
      ps.cumulative_units = 0 ∧ ps.cumulative_cost = 0 := by
  have hlen : (l.map Prod.fst).length = (l.map fun p => ((p.2 : ℕ) : ℚ)).length := by simp
  have hlen2 : (l.map Prod.fst ++ [a]).length =
      (l.map (fun p => ((p.2 : ℕ) : ℚ)) ++ [-((((l.map Prod.snd).sum : ℕ)) : ℚ)]).length := by
    simp
  have hnem : ¬(l.map Prod.fst ++ [a]).isEmpty = true := by simp
  unfold calculate_position_state
  rw [if_neg (by simp [hlen2]), if_neg hnem]
  rw [List.zip_append hlen, List.zip_map']
  rw [show l.map (fun p => (p.1, (p.2 : ℚ))) = buyPairs l from rfl]
  rw [runCalc_append, runCalc_buys l ⟨[], 0, 0⟩ h]
  simp only [List.nil_append, zero_add, ite_self, List.zip_cons_cons, List.zip_nil_right]
  have h1 : (-((((l.map Prod.snd).sum : ℕ)) : ℚ)) ≠ 0 := by
    obtain ⟨p, rest, rfl⟩ : ∃ p rest, l = p :: rest := by
      cases l with
      | nil => exact absurd rfl hne
      | cons p rest => exact ⟨p, rest, rfl⟩
    have hps := (h p (List.mem_cons_self p rest)).2.1
    simp only [ne_eq, neg_eq_zero, Nat.cast_eq_zero, List.map_cons, List.sum_cons]
    omega
  have habs : |(-((((l.map Prod.snd).sum : ℕ)) : ℚ))| = ((((l.map Prod.snd).sum : ℕ)) : ℚ) := by
    rw [abs_neg, abs_of_nonneg (by positivity)]
  have hfl : ⌊|(-((((l.map Prod.snd).sum : ℕ)) : ℚ))|⌋ = (((l.map Prod.snd).sum : ℕ) : ℤ) := by
    rw [habs]; exact Int.floor_natCast _
  have hql : (buyQueue l).length = (l.map Prod.snd).sum := buyQueue_length l
  have hnl : ¬((buyQueue l).length < ((((l.map Prod.snd).sum : ℕ) : ℤ)).toNat) := by
    rw [hql]; simp
  have hcu : ((((l.map Prod.snd).sum : ℕ)) : ℚ) + (-((((l.map Prod.snd).sum : ℕ)) : ℚ)) = 0 := by
    ring
  simp only [runCalc, calcStep, h1, if_neg, hfl, not_lt.mpr hS, ha, hnl, hcu, roundDp_zero,
    ite_false, ite_true, if_pos, not_lt.mpr ha.le, abs_zero]
  simp [h1, not_lt.mpr hS, not_lt.mpr ha.le, ha, hnl, hcu, roundDp_zero]

/-- C7 (counterexample): two fractional half-unit buys followed by a
sell of the whole (one-unit) position: the quantities sum to zero, the
sell amount is positive, yet the calculator errors instead of
returning a drained `PositionState` — floor truncation pushed no queue
entries for the buys while the sell tries to pop one. -/
theorem c7_counterexample :
    roundDp 4 ((1 : ℚ)/2 + 1/2 + -1) = 0 ∧ (0 : ℚ) < 30 ∧
    calculate_position_state [-10, -10, 30] [1/2, 1/2, -1] =
      .error "Cannot calculate position_state: trying to sell more units than available in queue" :=
  ⟨by decide, by decide, by decide⟩

/-- C7 (witness): a concrete one-buy full-sell instance of
`c7_full_sell`. -/
theorem c7_full_sell_witness :
    ([((-10 : ℚ), (1 : ℕ))] ≠ []) ∧
    (∀ p ∈ [((-10 : ℚ), (1 : ℕ))], p.1 < 0 ∧ 1 ≤ p.2 ∧ (p.2 : ℤ) ≤ i64Max) ∧
    (0 : ℚ) < 30 ∧ ((([((-10 : ℚ), (1 : ℕ))].map Prod.snd).sum : ℕ) : ℤ) ≤ i64Max ∧
    (∃ ps, calculate_position_state ([((-10 : ℚ), (1 : ℕ))].map Prod.fst ++ [30])
        ([((-10 : ℚ), (1 : ℕ))].map (fun p => ((p.2 : ℕ) : ℚ)) ++
          [-(((([((-10 : ℚ), (1 : ℕ))].map Prod.snd).sum : ℕ)) : ℚ)]) = .ok ps ∧
      ps.cumulative_units = 0 ∧ ps.cumulative_cost = 0) :=
  ⟨by decide, by decide, by decide, by decide,
    c7_full_sell _ 30 (by decide) (by decide) (by decide) (by decide)⟩

/-! ## Claim C10: the signed pairs fed to the calculator -/

/-- C10: for a transaction with positive price, exchange rate and
quantity and non-negative fees, `get_amount` is
`-(price * exchange_rate * quantity + fees)` for `Buy` and
`+(price * exchange_rate * quantity + fees)` for `Sell` or `Div`
(fees are added to, not subtracted from, sale proceeds), and
`get_quantity` is `+quantity` for `Buy` and `-quantity` for `Sell`
and `Div`. -/
theorem c10_signed_pairs (t : Transaction) (hp : 0 < t.price)
    (hx : 0 < t.exchange_rate) (hq : 0 < t.quantity) (hf : 0 ≤ t.fees) :
    (t.transaction_type = .Buy →
      t.get_amount = -(t.price * t.exchange_rate * t.quantity + t.fees) ∧
      t.get_quantity = t.quantity) ∧
    ((t.transaction_type = .Sell ∨ t.transaction_type = .Div) →
      t.get_amount = t.price * t.exchange_rate * t.quantity + t.fees ∧
      t.get_quantity = -t.quantity) := by
  constructor
  · intro hB
    simp [Transaction.get_amount, Transaction.get_quantity, hB]
  · intro hSD
    have hnb : ¬(t.transaction_type = .Buy) := by
      rcases hSD with hs | hd
      · rw [hs]; intro hc; cases hc
      · rw [hd]; intro hc; cases hc
    simp [Transaction.get_amount, Transaction.get_quantity, hnb]

/-- A concrete transaction used to witness C10. -/
def sampleBuy : Transaction :=
  ⟨1, 0, .Buy, ⟨"A", "A Co", "USD", "X", none, none, .Fmp⟩, "B", "USD", 1, 2, 3, 1,
   none, none⟩

/-- C10 (witness): `c10_signed_pairs` applied to the concrete `Buy`
transaction `sampleBuy` (price 3, exchange rate 1, quantity 2, fees 1). -/
theorem c10_signed_pairs_witness :
    (0 : ℚ) < sampleBuy.price ∧ (0 : ℚ) < sampleBuy.exchange_rate ∧
    (0 : ℚ) < sampleBuy.quantity ∧ (0 : ℚ) ≤ sampleBuy.fees ∧
    sampleBuy.get_amount =
      -(sampleBuy.price * sampleBuy.exchange_rate * sampleBuy.quantity + sampleBuy.fees) ∧
    sampleBuy.get_quantity = sampleBuy.quantity :=
  ⟨by decide, by decide, by decide, by decide,
    (c10_signed_pairs sampleBuy (by decide) (by decide) (by decide) (by decide)).1 rfl⟩

/-! ## Transactional CSV importer (src/src/app/portfolio.rs)

CSV parsing is abstracted: a `Row` carries the already-parsed typed
fields of one record, in the column order of the file.  The SQLite
database is a `Db` value; the ticker resolver (`find_ticker`) and the
FX resolver (`get_exchange_rate`), whose bodies live outside src/, are
oracle parameters of the import. -/

/-- One parsed CSV record (columns of src/src/app/portfolio.rs lines
362-410). -/
structure Row where
  transaction_no : ℤ
  date : ℤ
  transaction_type : TransactionType
  symbol : String
  quantity : ℚ
  price : ℚ
  fees : ℚ
  broker : String
  alternative_symbol : String
  transaction_currency : String
deriving DecidableEq, Repr

/-- A persisted row of the `tickers` table (columns read back by
`get_existing_tickers`). -/
structure DbTicker where
  id : ℤ
  symbol : String
  name : String
  currency : String
  exchange : String
  last_price : Option ℚ
  last_price_updated_at : Option ℤ
  api : ApiProvider
deriving DecidableEq, Repr

/-- A persisted row of the `transactions` table (columns bound by
`insert_transaction` in src/src/db/write.rs; every numeric column is
stored rounded to 4 decimal places). -/
structure DbTransaction where
  transaction_no : ℤ
  date : ℤ
  transaction_type : TransactionType
  ticker_id : ℤ
  broker : String
  currency : String
  exchange_rate : ℚ
  quantity : ℚ
  price : ℚ
  fees : ℚ
  position_state : PositionState
  transaction_gains : TransactionGains
deriving DecidableEq, Repr

/-- The persistent store: tickers, asset names, and transactions. -/
structure Db where
  tickers : List DbTicker
  assets : List String
  transactions : List DbTransaction
deriving DecidableEq, Repr

/-- The in-memory `ticker_map`: lookup key (the queried symbol) to the
resolved `Ticker` and its row id. -/
abbrev TickerMap := List (String × Ticker × ℤ)

/-- The importer's external collaborators: the base currency and the
`find_ticker` / `get_exchange_rate` calls (both live outside src/ and
are abstracted as oracles). -/
structure ImportEnv where
  base_currency : String
  resolve : String → Except String Ticker
  fx : String → String → ℤ → Except String ℚ

/-- `HashMap::get` on the ticker map. -/
def lookupMap (m : TickerMap) (s : String) : Option (Ticker × ℤ) :=
  (m.find? (fun e => e.1 == s)).map (fun e => e.2)

/-- `get_existing_tickers`: the map read from the `tickers` table,
keyed by the persisted symbol. -/
def mapFromDb (tickers : List DbTicker) : TickerMap :=
  tickers.map (fun t =>
    (t.symbol,
     ⟨t.symbol, t.name, t.currency, t.exchange, t.last_price, t.last_price_updated_at, t.api⟩,
     t.id))

/-- The row id assigned by the next ticker insert. -/
def nextTickerId (db : Db) : ℤ :=
  db.tickers.foldl (fun m t => max m t.id) 0 + 1

/-- `insert_ticker` from src/src/db/utils.rs lines 8-62, as called by
`update_tickers` (src/src/app/portfolio.rs line 554): the asset row is
looked up by name and inserted only when the name is new, then the
ticker row is appended with its `last_price` defaulted to zero when
absent and stored rounded to 4 dp, its timestamp, and its `api` tag.
Assets are identified here by their name (the lookup key the SQL
uses); the ticker's displayed name is the joined asset name, i.e. the
resolved ticker's name. -/
def insertTickerDb (db : Db) (tk : Ticker) (id : ℤ) : Db :=
  { db with
    tickers := db.tickers ++
      [⟨id, tk.symbol, tk.name, tk.currency, tk.exchange,
        some (roundDp 4 ((tk.last_price).getD 0)), tk.last_price_updated_at, tk.api⟩],
    assets := if db.assets.contains tk.name then db.assets else db.assets ++ [tk.name] }

/-- The fan-out of `update_tickers` (src/src/app/portfolio.rs lines
523-572): every symbol absent from the map is resolved; each success
commits its ticker/asset rows in an own short-lived transaction; the
errors are collected in spawn order. -/
def runUpdateTickers (env : ImportEnv) :
    Db → TickerMap → List String → List String → Db × TickerMap × List String
  | db, m, errs, [] => (db, m, errs)
  | db, m, errs, s :: rest =>
    match lookupMap m s with
    | some _ => runUpdateTickers env db m errs rest
    | none =>
      match env.resolve s with
      | .ok tk =>
        runUpdateTickers env (insertTickerDb db tk (nextTickerId db))
          (m ++ [(s, tk, nextTickerId db)]) errs rest
      | .error e => runUpdateTickers env db m (errs ++ [e]) rest

/-- `update_tickers`: the first resolution failure is returned as the
call's error, but every successful resolution's rows stay committed. -/
def updateTickers (env : ImportEnv) (db : Db) (syms : List String) :
    Db × Except String TickerMap :=
  match runUpdateTickers env db (mapFromDb db.tickers) [] syms with
  | (db2, m, []) => (db2, .ok m)
  | (db2, _, e :: _) => (db2, .error e)

/-- The pre-scan of src/src/app/portfolio.rs lines 324-336: the set of
distinct symbols (column 3) and non-empty alternative symbols
(column 8), here in first-occurrence order. -/
def uniqueSymbols (rows : List Row) : List String :=
  rows.foldl (fun acc r =>
    let acc1 := if acc.contains r.symbol then acc else acc ++ [r.symbol]
    if r.alternative_symbol.length > 0 && !(acc1.contains r.alternative_symbol) then
      acc1 ++ [r.alternative_symbol]
    else acc1) []

/-- `get_last_transaction_no`: `SELECT MAX(transaction_no)`, with the
SQL `NULL` of an empty table mapped to 0 by `unwrap_or(0)`. -/
def maxNo : List DbTransaction → ℤ
  | [] => 0
  | [t] => t.transaction_no
  | t :: u :: rest => max t.transaction_no (maxNo (u :: rest))

/-- `get_existing_forex`: lookup of a persisted exchange rate by
sequence number. -/
def lookupFx (fmap : List (ℤ × ℚ)) (no : ℤ) : Option ℚ :=
  (fmap.find? (fun e => e.1 == no)).map (fun e => e.2)

/-- The ticker lookup of src/src/app/portfolio.rs lines 412-430: the
symbol column first, then — when non-empty — the alternative symbol. -/
def rowTicker (m : TickerMap) (r : Row) : Option (Ticker × ℤ) :=
  match lookupMap m r.symbol with
  | some v => some v
  | none =>
    if r.alternative_symbol.length > 0 then lookupMap m r.alternative_symbol
    else none

/-- The loop state of the record loop: the inserts buffered inside the
open database transaction, and the `transactions` vector of rows
already processed by this call. -/
structure LoopState where
  pending : List DbTransaction
  processed : List Transaction
deriving DecidableEq, Repr

/-- The column values bound by `insert_transaction`
(src/src/db/utils.rs lines 64-122): every decimal rounded to 4 dp. -/
def toDbTransaction (t : Transaction) (ticker_id : ℤ) (ps : PositionState)
    (g : TransactionGains) : DbTransaction :=
  ⟨t.transaction_no, t.date, t.transaction_type, ticker_id, t.broker, t.currency,
   roundDp 4 t.exchange_rate, roundDp 4 t.quantity, roundDp 4 t.price, roundDp 4 t.fees,
   ⟨roundDp 4 ps.cumulative_units, roundDp 4 ps.cumulative_cost,
    roundDp 4 ps.cost_of_units_sold⟩,
   ⟨roundDp 4 g.realized_gains, roundDp 4 g.dividends_collected⟩⟩

/-- Membership of a sequence number in a list of persisted rows. -/
def hasNo (l : List DbTransaction) (no : ℤ) : Bool :=
  l.any (fun d => d.transaction_no == no)

/-- The effective transaction currency (src/src/app/portfolio.rs lines
436-438): an empty column defaults to the ticker's native currency. -/
def rowCurrencyTarget (ticker : Ticker) (r : Row) : String :=
  if r.transaction_currency = "" then ticker.currency else r.transaction_currency

/-- The price conversion of lines 440-453: when the transaction
currency differs from the ticker's, the price is multiplied by the
fetched rate. -/
def rowPrice (env : ImportEnv) (ticker : Ticker) (r : Row) : Except String ℚ :=
  if rowCurrencyTarget ticker r ≠ ticker.currency then
    match env.fx ticker.currency (rowCurrencyTarget ticker r) r.date with
    | .ok x => .ok (r.price * x)
    | .error e => .error e
  else .ok r.price

/-- The base-currency rate of lines 455-468: a persisted rate for the
same sequence number is reused, otherwise it is fetched. -/
def rowRate (env : ImportEnv) (fmap : List (ℤ × ℚ)) (ticker : Ticker) (r : Row) :
    Except String ℚ :=
  match lookupFx fmap r.transaction_no with
  | some x => .ok x
  | none => env.fx ticker.currency env.base_currency r.date

/-- The `Transaction::new` call of lines 470-483. -/
def mkRowTransaction (ticker : Ticker) (r : Row) (exchange_rate price : ℚ) : Transaction :=
  ⟨r.transaction_no, r.date, r.transaction_type, ticker, r.broker, ticker.currency,
   exchange_rate, r.quantity, price, r.fees, none, none⟩

/-- The history filter of lines 485-495: this call's prior rows with
the same resolved ticker symbol, type `Buy` or `Sell`, the same broker
and the same currency. -/
def histFilter (prev : List Transaction) (sym broker currency : String) :
    List Transaction :=
  prev.filter (fun p =>
    decide (p.ticker.symbol = sym ∧
      (p.transaction_type = .Buy ∨ p.transaction_type = .Sell) ∧
      p.broker = broker ∧ p.currency = currency))

/-- The ticker lookup as a fallible step (the two error messages of
lines 421-427 are collapsed into one). -/
def rowTickerE (m : TickerMap) (r : Row) : Except String (Ticker × ℤ) :=
  match rowTicker m r with
  | some v => .ok v
  | none => .error "Could not find symbol"

/-- The appended transaction of one processed row, with its computed
`PositionState` and `TransactionGains` cached (lines 500-507). -/
def rowResult (ticker : Ticker) (r : Row) (exchange_rate price : ℚ)
    (ps : PositionState) : Transaction :=
  { mkRowTransaction ticker r exchange_rate price with
    position_state := some ps,
    transaction_gains :=
      some (calculate_transaction_gains (mkRowTransaction ticker r exchange_rate price) ps) }

/-- One iteration of the record loop of `import_transactions`
(src/src/app/portfolio.rs lines 353-514): the watermark skip, the
ticker lookup, the optional transaction-currency price conversion, the
FX-rate reuse or fetch, the FIFO replay over this call's prior rows
for the same ticker symbol, Buy/Sell type, broker and currency with
the new pair appended, the gains, and the buffered insert.  The
insert itself is the `INSERT OR IGNORE` of src/src/db/utils.rs lines
79-100.  Modelled from the spec: the schema of the `transactions`
table, which fixes the uniqueness key that `OR IGNORE` acts on, is not
under src/ (src/src/db/init.rs is an older iteration without
`transaction_no`); per spec §6 the insert is keyed by the sequence
number, checked against the committed rows and the buffer. -/
def importStep (env : ImportEnv) (m : TickerMap) (fmap : List (ℤ × ℚ)) (last : ℤ)
    (dbt : List DbTransaction) (st : LoopState) (r : Row) : Except String LoopState :=
  if last ≠ 0 ∧ r.transaction_no ≤ last then .ok st
  else
    (rowTickerE m r).bind fun tkid =>
    (rowPrice env tkid.1 r).bind fun price =>
    (rowRate env fmap tkid.1 r).bind fun exchange_rate =>
    (calculate_position_state
        ((histFilter st.processed tkid.1.symbol r.broker tkid.1.currency).map
          Transaction.get_amount ++
         [(mkRowTransaction tkid.1 r exchange_rate price).get_amount])
        ((histFilter st.processed tkid.1.symbol r.broker tkid.1.currency).map
          Transaction.get_quantity ++
         [(mkRowTransaction tkid.1 r exchange_rate price).get_quantity])).bind fun ps =>
    .ok ⟨(if hasNo dbt r.transaction_no || hasNo st.pending r.transaction_no then
            st.pending
          else
            st.pending ++
              [toDbTransaction (mkRowTransaction tkid.1 r exchange_rate price) tkid.2 ps
                (calculate_transaction_gains (mkRowTransaction tkid.1 r exchange_rate price)
                  ps)]),
         st.processed ++ [rowResult tkid.1 r exchange_rate price ps]⟩

/-- The record loop: fold `importStep`, propagating the first error
(which makes the caller roll the database transaction back). -/
def runImportRows (env : ImportEnv) (m : TickerMap) (fmap : List (ℤ × ℚ)) (last : ℤ)
    (dbt : List DbTransaction) : LoopState → List Row → Except String LoopState
  | st, [] => .ok st
  | st, r :: rest =>
    match importStep env m fmap last dbt st r with
    | .error e => .error e
    | .ok st2 => runImportRows env m fmap last dbt st2 rest

/-- `import_transactions` (src/src/app/portfolio.rs lines 309-521):
resolve and commit new tickers, read the forex map and the watermark,
run the record loop inside one database transaction, and commit it on
success; on any loop failure the buffered inserts are discarded
(rollback) while the already-committed ticker/asset rows remain. -/
def import_transactions (env : ImportEnv) (db : Db) (rows : List Row) :
    Db × Except String Unit :=
  match updateTickers env db (uniqueSymbols rows) with
  | (db1, .error e) => (db1, .error e)
  | (db1, .ok m) =>
    match runImportRows env m
        (db1.transactions.map fun t => (t.transaction_no, t.exchange_rate))
        (maxNo db1.transactions) db1.transactions ⟨[], []⟩ rows with
    | .error e => (db1, .error e)
    | .ok st => ({ db1 with transactions := db1.transactions ++ st.pending }, .ok ())

/-! ## Concurrent price refresher (src/src/app/portfolio.rs lines
574-665)

Each spawned task fetches one ticker's latest price from its provider
and, on success, commits the ticker's `last_price` and
`last_price_updated_at` together in a single `UPDATE` statement; a
failure only contributes an error string.  Tasks touch rows of
distinct symbols, so the concurrent fan-out is linearised here as a
fold in spawn order; the provider calls are the oracle `fetch`. -/

/-- The error string built at src/src/app/portfolio.rs lines 642-646. -/
def priceErrMsg (sym cause : String) : String :=
  "Failed to fetch price for " ++ sym ++ ": " ++ cause

/-- The `UPDATE tickers SET last_price = ?, last_price_updated_at =
DATETIME('now') ... WHERE symbol = ?` statement: both columns of every
row with the symbol are written together. -/
def updateTickerPrice (tickers : List DbTicker) (sym : String) (p : ℚ) (now : ℤ) :
    List DbTicker :=
  tickers.map (fun t =>
    if t.symbol == sym then
      { t with last_price := some p, last_price_updated_at := some now }
    else t)

/-- The joined fan-out: one fetch per (symbol, api) pair, successes
written through immediately, failures collected in spawn order. -/
def runUpdatePrices (fetch : String → ApiProvider → Except String ℚ) (now : ℤ) :
    List DbTicker → List String → List (String × ApiProvider) →
    List DbTicker × List String
  | cur, errs, [] => (cur, errs)
  | cur, errs, sa :: rest =>
    match fetch sa.1 sa.2 with
    | .ok p => runUpdatePrices fetch now (updateTickerPrice cur sa.1 p now) errs rest
    | .error e => runUpdatePrices fetch now cur (errs ++ [priceErrMsg sa.1 e]) rest

/-- `update_prices`: fan out over every ticker's (symbol, api) pair;
if any task failed, return one aggregate error (a newline-joined list
preceded by a newline, as built by the `anyhow!` at line 661) while
the successful updates stay committed. -/
def update_prices (fetch : String → ApiProvider → Except String ℚ) (now : ℤ)
    (db : Db) : Db × Except String Unit :=
  match runUpdatePrices fetch now db.tickers [] (db.tickers.map fun t => (t.symbol, t.api)) with
  | (tks, []) => ({ db with tickers := tks }, .ok ())
  | (tks, e :: es) =>
    ({ db with tickers := tks }, .error (String.intercalate "\n" ("" :: e :: es)))

/-- The per-ticker result of a refresh: on a successful fetch both
price fields are replaced together, otherwise the row is untouched. -/
def applyFetch (fetch : String → ApiProvider → Except String ℚ) (now : ℤ)
    (t : DbTicker) : DbTicker :=
  match fetch t.symbol t.api with
  | .ok p => { t with last_price := some p, last_price_updated_at := some now }
  | .error _ => t

/-! ## Claim C4: failure atomicity of the import -/

theorem runUpdateTickers_transactions (env : ImportEnv) :
    ∀ (syms : List String) (db : Db) (m : TickerMap) (errs : List String),
      (runUpdateTickers env db m errs syms).1.transactions = db.transactions := by
  intro syms
  induction syms with
  | nil => intro db m errs; rfl
  | cons s rest ih =>
    intro db m errs
    unfold runUpdateTickers
    cases lookupMap m s with
    | some v => exact ih db m errs
    | none =>
      cases env.resolve s with
      | ok tk => exact ih (insertTickerDb db tk (nextTickerId db)) _ errs
      | error e => exact ih db m (errs ++ [e])

theorem updateTickers_transactions (env : ImportEnv) (db : Db) (syms : List String) :
    (updateTickers env db syms).1.transactions = db.transactions := by
  unfold updateTickers
  have h := runUpdateTickers_transactions env syms db (mapFromDb db.tickers) []
  rcases hu : runUpdateTickers env db (mapFromDb db.tickers) [] syms with ⟨db2, m, errs⟩
  rw [hu] at h
  cases errs <;> simpa using h

/-- C4 (amended): if `import_transactions` returns an error, no
transaction row written during the call is visible afterwards — the
buffered inserts of the database transaction are discarded.  (Ticker
and asset rows committed during symbol resolution may remain; see the
counterexample.) -/
theorem c4_error_rolls_back_transactions (env : ImportEnv) (db : Db) (rows : List Row)
    (e : String) (h : (import_transactions env db rows).2 = .error e) :
    (import_transactions env db rows).1.transactions = db.transactions := by
  have htx := updateTickers_transactions env db (uniqueSymbols rows)
  unfold import_transactions at h ⊢
  rcases hu : updateTickers env db (uniqueSymbols rows) with ⟨db1, r⟩
  rw [hu] at htx
  cases r with
  | error e2 => simp only [hu]; exact htx
  | ok m =>
    rw [hu] at h
    simp only [] at h
    cases hr : runImportRows env m
        (db1.transactions.map fun t => (t.transaction_no, t.exchange_rate))
        (maxNo db1.transactions) db1.transactions ⟨[], []⟩ rows with
    | error e2 => simp only [hu, hr]; exact htx
    | ok st => rw [hr] at h; cases h

/-- The environment of the C4 scenario: symbol `NEW` resolves, the FX
oracle always answers 1. -/
def c4env : ImportEnv :=
  ⟨"USD",
   fun s => if s = "NEW" then .ok ⟨"NEW", "New Co", "USD", "NYSE", none, none, .Fmp⟩
            else .error "no ticker",
   fun _ _ _ => .ok 1⟩

/-- The failing CSV row of the C4 scenario: its quantity is zero, so
the FIFO calculator rejects it after the ticker was resolved. -/
def c4row : Row := ⟨1, 0, .Buy, "NEW", 0, 10, 0, "B", "", ""⟩

/-- C4 (counterexample): the import of the single zero-quantity row
returns an error, yet the ticker row (and asset row) resolved and
committed for `NEW` during the failed call remain persisted —
contradicting the claim that no ticker or asset row created during the
call remains. -/
theorem c4_counterexample :
    (import_transactions c4env ⟨[], [], []⟩ [c4row]).2 =
      .error "Cannot calculate position state: quantity is zero at index" ∧
    (import_transactions c4env ⟨[], [], []⟩ [c4row]).1.tickers =
      [⟨1, "NEW", "New Co", "USD", "NYSE", some 0, none, .Fmp⟩] ∧
    (import_transactions c4env ⟨[], [], []⟩ [c4row]).1.assets = ["New Co"] :=
  ⟨by decide, by decide, by decide⟩

/-- C4 (witness): `c4_error_rolls_back_transactions` applied to the
concrete failing import — the transaction table stays empty. -/
theorem c4_error_rolls_back_transactions_witness :
    (import_transactions c4env ⟨[], [], []⟩ [c4row]).2 =
      .error "Cannot calculate position state: quantity is zero at index" ∧
    (import_transactions c4env ⟨[], [], []⟩ [c4row]).1.transactions =
      (Db.mk [] [] []).transactions :=
  ⟨by decide,
    c4_error_rolls_back_transactions c4env ⟨[], [], []⟩ [c4row]
      "Cannot calculate position state: quantity is zero at index" (by decide)⟩

/-! ## Claim C3: the pairs fed to the calculator per imported row -/

/-- The history as the claim words it: all already-imported `Buy` and
`Sell` transactions for the same ticker and broker, in their original
order (stated without the redundant currency conjunct the code also
checks; a transaction's currency is its resolved ticker's currency). -/
def claimHistory (prev : List Transaction) (tk : Ticker) (broker : String) :
    List Transaction :=
  prev.filter (fun p =>
    decide (p.ticker.symbol = tk.symbol ∧
      (p.transaction_type = .Buy ∨ p.transaction_type = .Sell) ∧
      p.broker = broker))

/-- C3: for every CSV row the record loop processes (does not skip),
the `(amounts, quantities)` sequences passed to the FIFO calculator
are the pairs of this call's already-imported Buy and Sell
transactions for the same ticker and broker, in order, with the new
row's pair appended last, and the resulting `PositionState` and
`TransactionGains` are cached on the appended transaction.  The two
hypotheses record that prior rows carry their resolved ticker's
currency, which makes the code's currency conjunct redundant. -/
theorem exceptBind_ok {α β : Type} (a : α) (f : α → Except String β) :
    (Except.ok a : Except String α).bind f = f a := rfl

theorem exceptBind_error {α β : Type} (e : String) (f : α → Except String β) :
    (Except.error e : Except String α).bind f = .error e := rfl

theorem c3_history_pairs (env : ImportEnv) (m : TickerMap) (fmap : List (ℤ × ℚ))
    (last : ℤ) (dbt : List DbTransaction) (st : LoopState) (r : Row)
    (hns : ¬(last ≠ 0 ∧ r.transaction_no ≤ last))
    (h1 : ∀ t ∈ st.processed, t.currency = t.ticker.currency)
    (h2 : ∀ tk id, rowTickerE m r = .ok (tk, id) →
      ∀ t ∈ st.processed, t.ticker.symbol = tk.symbol → t.ticker.currency = tk.currency)
    (hok : (importStep env m fmap last dbt st r).isOk = true) :
    ∃ pnd t2, importStep env m fmap last dbt st r = .ok ⟨pnd, st.processed ++ [t2]⟩ ∧
      ∃ ps, calculate_position_state
          ((claimHistory st.processed t2.ticker r.broker).map Transaction.get_amount ++
            [t2.get_amount])
          ((claimHistory st.processed t2.ticker r.broker).map Transaction.get_quantity ++
            [t2.get_quantity]) = .ok ps ∧
        t2.position_state = some ps ∧
        t2.transaction_gains = some (calculate_transaction_gains t2 ps) := by
  unfold importStep at hok ⊢
  rw [if_neg hns] at hok ⊢
  cases hrt : rowTickerE m r with
  | error e =>
    simp only [hrt, exceptBind_error, Except.isOk, Except.toBool] at hok
    exact Bool.noConfusion hok
  | ok tkid =>
    obtain ⟨ticker, tid⟩ := tkid
    simp only [hrt, exceptBind_ok] at hok ⊢
    cases hp : rowPrice env ticker r with
    | error e =>
      simp only [hp, exceptBind_error, Except.isOk, Except.toBool] at hok
      exact Bool.noConfusion hok
    | ok price =>
      simp only [hp, exceptBind_ok] at hok ⊢
      cases hx : rowRate env fmap ticker r with
      | error e =>
        simp only [hx, exceptBind_error, Except.isOk, Except.toBool] at hok
        exact Bool.noConfusion hok
      | ok rate =>
        simp only [hx, exceptBind_ok] at hok ⊢
        have hfe : histFilter st.processed ticker.symbol r.broker ticker.currency
            = claimHistory st.processed ticker r.broker := by
          unfold histFilter claimHistory
          apply List.filter_congr
          intro p hp2
          rw [decide_eq_decide]
          constructor
          · rintro ⟨hs, ht, hb, hc⟩; exact ⟨hs, ht, hb⟩
          · rintro ⟨hs, ht, hb⟩
            exact ⟨hs, ht, hb, (h1 p hp2).trans (h2 ticker tid hrt p hp2 hs)⟩
        cases hc : calculate_position_state
            ((histFilter st.processed ticker.symbol r.broker ticker.currency).map
              Transaction.get_amount ++
             [(mkRowTransaction ticker r rate price).get_amount])
            ((histFilter st.processed ticker.symbol r.broker ticker.currency).map
              Transaction.get_quantity ++
             [(mkRowTransaction ticker r rate price).get_quantity]) with
        | error e =>
          simp only [hc, exceptBind_error, Except.isOk, Except.toBool] at hok
          exact Bool.noConfusion hok
        | ok ps =>
          simp only [hc, exceptBind_ok]
          rw [hfe] at hc
          refine ⟨_, _, rfl, ps, ?_, rfl, rfl⟩
          exact hc

/-- The environment and inputs of the C3 witness scenario. -/
def c3map : TickerMap := [("S", ⟨"S", "S Co", "USD", "X", none, none, .Fmp⟩, 1)]

/-- The C3 witness environment: the FX oracle answers 1. -/
def c3env : ImportEnv := ⟨"USD", fun _ => .error "unused", fun _ _ _ => .ok 1⟩

/-- The C3 witness row: a one-unit buy of `S` at price 10. -/
def c3row : Row := ⟨1, 0, .Buy, "S", 1, 10, 0, "B", "", ""⟩

/-- C3 (witness): `c3_history_pairs` applied to a concrete processed
row over an empty history. -/
theorem c3_history_pairs_witness :
    (¬((0 : ℤ) ≠ 0 ∧ c3row.transaction_no ≤ 0)) ∧
    (∀ t ∈ (LoopState.mk [] []).processed, t.currency = t.ticker.currency) ∧
    (∀ tk id, rowTickerE c3map c3row = .ok (tk, id) →
      ∀ t ∈ (LoopState.mk [] []).processed,
        t.ticker.symbol = tk.symbol → t.ticker.currency = tk.currency) ∧
    (importStep c3env c3map [] 0 [] ⟨[], []⟩ c3row).isOk = true ∧
    (∃ pnd t2, importStep c3env c3map [] 0 [] ⟨[], []⟩ c3row =
        .ok ⟨pnd, (LoopState.mk [] []).processed ++ [t2]⟩ ∧
      ∃ ps, calculate_position_state
          ((claimHistory (LoopState.mk [] []).processed t2.ticker c3row.broker).map
            Transaction.get_amount ++ [t2.get_amount])
          ((claimHistory (LoopState.mk [] []).processed t2.ticker c3row.broker).map
            Transaction.get_quantity ++ [t2.get_quantity]) = .ok ps ∧
        t2.position_state = some ps ∧
        t2.transaction_gains = some (calculate_transaction_gains t2 ps)) :=
  ⟨by decide, by simp, by simp, by decide,
    c3_history_pairs c3env c3map [] 0 [] ⟨[], []⟩ c3row (by decide) (by simp)
      (by simp) (by decide)⟩

/-! ## Claim C5: the idempotency watermark -/

theorem hasNo_iff (l : List DbTransaction) (no : ℤ) :
    hasNo l no = true ↔ ∃ t ∈ l, t.transaction_no = no := by
  simp [hasNo, List.any_eq_true]

theorem hasNo_append_left (l e : List DbTransaction) (no : ℤ)
    (h : hasNo l no = true) : hasNo (l ++ e) no = true := by
  rw [hasNo_iff] at h ⊢
  obtain ⟨t, ht, hn⟩ := h
  exact ⟨t, List.mem_append_left e ht, hn⟩

theorem lookupMap_append_none (m1 m2 : TickerMap) (s : String)
    (h : lookupMap (m1 ++ m2) s = none) : lookupMap m1 s = none := by
  unfold lookupMap at h ⊢
  rw [List.find?_append] at h
  cases hf : m1.find? (fun e => e.1 == s) with
  | none => rfl
  | some v => rw [hf] at h; simp [Option.or] at h

theorem lookupMap_append_single (m : TickerMap) (e : String × Ticker × ℤ) (s : String)
    (h : e.1 ≠ s) : lookupMap (m ++ [e]) s = lookupMap m s := by
  unfold lookupMap
  rw [List.find?_append]
  cases hf : m.find? (fun x => x.1 == s) with
  | some v => simp [Option.or]
  | none =>
    simp only [Option.or, List.find?]
    have : (e.1 == s) = false := beq_eq_false_iff_ne.mpr h
    simp [this]

theorem maxNo_cons (t : DbTransaction) (l : List DbTransaction) (hl : l ≠ []) :
    maxNo (t :: l) = max t.transaction_no (maxNo l) := by
  cases l with
  | nil => exact absurd rfl hl
  | cons u rest => rfl

theorem le_maxNo_of_mem : ∀ (l : List DbTransaction) (t : DbTransaction), t ∈ l →
    t.transaction_no ≤ maxNo l := by
  intro l
  induction l with
  | nil => intro t ht; cases ht
  | cons t0 rest ih =>
    intro t ht
    cases rest with
    | nil =>
      rw [List.mem_singleton] at ht
      rw [ht]
      exact le_refl _
    | cons u rest2 =>
      rw [maxNo_cons t0 (u :: rest2) (by simp)]
      rcases List.mem_cons.mp ht with h | h
      · rw [h]; exact le_max_left _ _
      · exact le_trans (ih t h) (le_max_right _ _)

theorem maxNo_pos (l : List DbTransaction) (hl : l ≠ [])
    (h : ∀ t ∈ l, 0 < t.transaction_no) : 0 < maxNo l := by
  cases l with
  | nil => exact absurd rfl hl
  | cons t0 rest =>
    exact lt_of_lt_of_le (h t0 (List.mem_cons_self t0 rest))
      (le_maxNo_of_mem _ t0 (List.mem_cons_self t0 rest))

theorem maxNo_le_append : ∀ (l p : List DbTransaction), l ≠ [] →
    maxNo l ≤ maxNo (l ++ p) := by
  intro l
  induction l with
  | nil => intro p h; exact absurd rfl h
  | cons t0 rest ih =>
    intro p _
    cases rest with
    | nil =>
      simp only [List.cons_append, List.nil_append]
      exact le_maxNo_of_mem (t0 :: p) t0 (List.mem_cons_self t0 p)
    | cons u rest2 =>
      rw [maxNo_cons t0 (u :: rest2) (by simp), List.cons_append,
        maxNo_cons t0 ((u :: rest2) ++ p) (by simp)]
      exact max_le_max (le_refl _) (ih p (by simp))

theorem importStep_skip (env : ImportEnv) (m : TickerMap) (fmap : List (ℤ × ℚ))
    (last : ℤ) (dbt : List DbTransaction) (st : LoopState) (r : Row)
    (h0 : last ≠ 0) (hle : r.transaction_no ≤ last) :
    importStep env m fmap last dbt st r = .ok st := by
  unfold importStep
  rw [if_pos ⟨h0, hle⟩]

theorem importStep_shape (env : ImportEnv) (m : TickerMap) (fmap : List (ℤ × ℚ))
    (last : ℤ) (dbt : List DbTransaction) (st : LoopState) (r : Row) (st2 : LoopState)
    (h : importStep env m fmap last dbt st r = .ok st2) :
    st2 = st ∨
      ((hasNo dbt r.transaction_no || hasNo st.pending r.transaction_no) = true ∧
        st2.pending = st.pending) ∨
      (∃ d, d.transaction_no = r.transaction_no ∧ st2.pending = st.pending ++ [d]) := by
  unfold importStep at h
  by_cases hskip : last ≠ 0 ∧ r.transaction_no ≤ last
  · rw [if_pos hskip] at h
    injection h with h
    exact Or.inl h.symm
  · rw [if_neg hskip] at h
    cases hrt : rowTickerE m r with
    | error e => rw [hrt, exceptBind_error] at h; cases h
    | ok tkid =>
      simp only [hrt, exceptBind_ok] at h
      cases hp : rowPrice env tkid.1 r with
      | error e => rw [hp, exceptBind_error] at h; cases h
      | ok price =>
        simp only [hp, exceptBind_ok] at h
        cases hx : rowRate env fmap tkid.1 r with
        | error e => rw [hx, exceptBind_error] at h; cases h
        | ok rate =>
          simp only [hx, exceptBind_ok] at h
          cases hc : calculate_position_state
              ((histFilter st.processed tkid.1.symbol r.broker tkid.1.currency).map
                Transaction.get_amount ++
               [(mkRowTransaction tkid.1 r rate price).get_amount])
              ((histFilter st.processed tkid.1.symbol r.broker tkid.1.currency).map
                Transaction.get_quantity ++
               [(mkRowTransaction tkid.1 r rate price).get_quantity]) with
          | error e => rw [hc, exceptBind_error] at h; cases h
          | ok ps =>
            simp only [hc, exceptBind_ok] at h
            injection h with h
            by_cases hdup : (hasNo dbt r.transaction_no ||
                hasNo st.pending r.transaction_no) = true
            · refine Or.inr (Or.inl ⟨hdup, ?_⟩)
              rw [← h]
              simp [hdup]
            · refine Or.inr (Or.inr ⟨toDbTransaction (mkRowTransaction tkid.1 r rate price)
                tkid.2 ps (calculate_transaction_gains (mkRowTransaction tkid.1 r rate price)
                  ps), rfl, ?_⟩)
              rw [← h]
              simp [hdup]

theorem runImportRows_pending_ext (env : ImportEnv) (m : TickerMap)
    (fmap : List (ℤ × ℚ)) (last : ℤ) (dbt : List DbTransaction) :
    ∀ (rows : List Row) (st stF : LoopState),
      runImportRows env m fmap last dbt st rows = .ok stF →
      ∃ ext, stF.pending = st.pending ++ ext := by
  intro rows
  induction rows with
  | nil =>
    intro st stF h
    injection h with h
    exact ⟨[], by rw [h, List.append_nil]⟩
  | cons r rest ih =>
    intro st stF h
    unfold runImportRows at h
    cases hs : importStep env m fmap last dbt st r with
    | error e => rw [hs] at h; cases h
    | ok st1 =>
      rw [hs] at h
      obtain ⟨ext1, hext1⟩ := ih st1 stF h
      rcases importStep_shape env m fmap last dbt st r st1 hs with h1 | ⟨_, h1⟩ | ⟨d, _, h1⟩
      · exact ⟨ext1, by rw [hext1, h1]⟩
      · exact ⟨ext1, by rw [hext1, h1]⟩
      · exact ⟨[d] ++ ext1, by rw [hext1, h1, List.append_assoc]⟩

theorem importStep_no_covered (env : ImportEnv) (m : TickerMap) (fmap : List (ℤ × ℚ))
    (last : ℤ) (dbt : List DbTransaction) (st : LoopState) (r : Row) (st1 : LoopState)
    (h : importStep env m fmap last dbt st r = .ok st1)
    (hns : ¬(last ≠ 0 ∧ r.transaction_no ≤ last)) :
    hasNo dbt r.transaction_no = true ∨ hasNo st1.pending r.transaction_no = true := by
  unfold importStep at h
  rw [if_neg hns] at h
  cases hrt : rowTickerE m r with
  | error e => rw [hrt, exceptBind_error] at h; cases h
  | ok tkid =>
    simp only [hrt, exceptBind_ok] at h
    cases hp : rowPrice env tkid.1 r with
    | error e => rw [hp, exceptBind_error] at h; cases h
    | ok price =>
      simp only [hp, exceptBind_ok] at h
      cases hx : rowRate env fmap tkid.1 r with
      | error e => rw [hx, exceptBind_error] at h; cases h
      | ok rate =>
        simp only [hx, exceptBind_ok] at h
        cases hc : calculate_position_state
            ((histFilter st.processed tkid.1.symbol r.broker tkid.1.currency).map
              Transaction.get_amount ++
             [(mkRowTransaction tkid.1 r rate price).get_amount])
            ((histFilter st.processed tkid.1.symbol r.broker tkid.1.currency).map
              Transaction.get_quantity ++
             [(mkRowTransaction tkid.1 r rate price).get_quantity]) with
        | error e => rw [hc, exceptBind_error] at h; cases h
        | ok ps =>
          simp only [hc, exceptBind_ok] at h
          injection h with h
          by_cases hdup : (hasNo dbt r.transaction_no ||
              hasNo st.pending r.transaction_no) = true
          · rcases Bool.or_eq_true_iff.mp hdup with hl | hr2
            · exact Or.inl hl
            · refine Or.inr ?_
              rw [← h]
              simpa [hdup] using hr2
          · refine Or.inr ?_
            rw [← h]
            simp only [hdup, if_false, Bool.false_eq_true]
            rw [hasNo_iff]
            exact ⟨toDbTransaction (mkRowTransaction tkid.1 r rate price) tkid.2 ps
              (calculate_transaction_gains (mkRowTransaction tkid.1 r rate price) ps),
              List.mem_append_right _ (List.mem_singleton.mpr rfl), rfl⟩

theorem runImportRows_covers (env : ImportEnv) (m : TickerMap)
    (fmap : List (ℤ × ℚ)) (last : ℤ) (dbt : List DbTransaction) :
    ∀ (rows : List Row) (st stF : LoopState),
      runImportRows env m fmap last dbt st rows = .ok stF →
      ∀ r ∈ rows, (last ≠ 0 ∧ r.transaction_no ≤ last) ∨
        hasNo dbt r.transaction_no = true ∨ hasNo stF.pending r.transaction_no = true := by
  intro rows
  induction rows with
  | nil => intro st stF h r hr; cases hr
  | cons r0 rest ih =>
    intro st stF h r hr
    unfold runImportRows at h
    cases hs : importStep env m fmap last dbt st r0 with
    | error e => rw [hs] at h; cases h
    | ok st1 =>
      rw [hs] at h
      rcases List.mem_cons.mp hr with hr0 | hrr
      · subst hr0
        by_cases hskip : last ≠ 0 ∧ r.transaction_no ≤ last
        · exact Or.inl hskip
        · obtain ⟨ext1, hext1⟩ :=
            runImportRows_pending_ext env m fmap last dbt rest st1 stF h
          rcases importStep_no_covered env m fmap last dbt st r st1 hs hskip with hl | hr2
          · exact Or.inr (Or.inl hl)
          · refine Or.inr (Or.inr ?_)
            rw [hext1]
            exact hasNo_append_left _ _ _ hr2
      · exact ih st1 stF h r hrr

theorem runImportRows_all_skip (env : ImportEnv) (m : TickerMap)
    (fmap : List (ℤ × ℚ)) (last : ℤ) (dbt : List DbTransaction) :
    ∀ (rows : List Row) (st : LoopState),
      (∀ r ∈ rows, last ≠ 0 ∧ r.transaction_no ≤ last) →
      runImportRows env m fmap last dbt st rows = .ok st := by
  intro rows
  induction rows with
  | nil => intro st h; rfl
  | cons r0 rest ih =>
    intro st h
    obtain ⟨h0, hle⟩ := h r0 (List.mem_cons_self r0 rest)
    unfold runImportRows
    rw [importStep_skip env m fmap last dbt st r0 h0 hle]
    exact ih st (fun r hr => h r (List.mem_cons_of_mem r0 hr))

theorem runImportRows_pending_pos (env : ImportEnv) (m : TickerMap)
    (fmap : List (ℤ × ℚ)) (last : ℤ) (dbt : List DbTransaction) :
    ∀ (rows : List Row) (st stF : LoopState),
      (∀ t ∈ st.pending, 0 < t.transaction_no) →
      (∀ r ∈ rows, 0 < r.transaction_no) →
      runImportRows env m fmap last dbt st rows = .ok stF →
      ∀ t ∈ stF.pending, 0 < t.transaction_no := by
  intro rows
  induction rows with
  | nil =>
    intro st stF hst hr h
    injection h with h
    rw [← h]
    exact hst
  | cons r0 rest ih =>
    intro st stF hst hr h
    unfold runImportRows at h
    cases hs : importStep env m fmap last dbt st r0 with
    | error e => rw [hs] at h; cases h
    | ok st1 =>
      rw [hs] at h
      have hst1 : ∀ t ∈ st1.pending, 0 < t.transaction_no := by
        rcases importStep_shape env m fmap last dbt st r0 st1 hs with h1 | ⟨_, h1⟩ |
            ⟨d, hd, h1⟩
        · rw [h1]; exact hst
        · rw [h1]; exact hst
        · rw [h1]
          intro t ht
          rcases List.mem_append.mp ht with hm | hm
          · exact hst t hm
          · rw [List.mem_singleton.mp hm, hd]
            exact hr r0 (List.mem_cons_self r0 rest)
      exact ih st1 stF hst1 (fun r hr2 => hr r (List.mem_cons_of_mem r0 hr2)) h

theorem runUpdateTickers_tickers_ext (env : ImportEnv) :
    ∀ (syms : List String) (db : Db) (m : TickerMap) (errs : List String),
      ∃ ext, (runUpdateTickers env db m errs syms).1.tickers = db.tickers ++ ext := by
  intro syms
  induction syms with
  | nil => intro db m errs; exact ⟨[], (List.append_nil _).symm⟩
  | cons s rest ih =>
    intro db m errs
    unfold runUpdateTickers
    cases lookupMap m s with
    | some v => exact ih db m errs
    | none =>
      cases env.resolve s with
      | ok tk =>
        obtain ⟨ext, hext⟩ := ih (insertTickerDb db tk (nextTickerId db))
          (m ++ [(s, tk, nextTickerId db)]) errs
        refine ⟨[⟨nextTickerId db, tk.symbol, tk.name, tk.currency, tk.exchange,
          some (roundDp 4 ((tk.last_price).getD 0)), tk.last_price_updated_at, tk.api⟩] ++
            ext, ?_⟩
        rw [hext]
        simp [insertTickerDb]
      | error e => exact ih db m (errs ++ [e])

theorem runUpdateTickers_errs_ext (env : ImportEnv) :
    ∀ (syms : List String) (db : Db) (m : TickerMap) (errs : List String),
      ∃ ext, (runUpdateTickers env db m errs syms).2.2 = errs ++ ext := by
  intro syms
  induction syms with
  | nil => intro db m errs; exact ⟨[], (List.append_nil _).symm⟩
  | cons s rest ih =>
    intro db m errs
    unfold runUpdateTickers
    cases lookupMap m s with
    | some v => exact ih db m errs
    | none =>
      cases env.resolve s with
      | ok tk => exact ih (insertTickerDb db tk (nextTickerId db)) _ errs
      | error e =>
        obtain ⟨ext, hext⟩ := ih db m (errs ++ [e])
        exact ⟨[e] ++ ext, by rw [hext, List.append_assoc]⟩

theorem runUpdateTickers_resolves (env : ImportEnv) :
    ∀ (syms : List String) (db : Db) (m : TickerMap),
      (runUpdateTickers env db m [] syms).2.2 = [] →
      ∀ s ∈ syms, lookupMap m s = none → ∃ tk, env.resolve s = .ok tk := by
  intro syms
  induction syms with
  | nil => intro db m h s hs; cases hs
  | cons s0 rest ih =>
    intro db m h s hs hnone
    unfold runUpdateTickers at h
    rcases List.mem_cons.mp hs with hs0 | hsr
    · subst hs0
      rw [hnone] at h
      cases hres : env.resolve s with
      | ok tk => exact ⟨tk, rfl⟩
      | error e =>
        rw [hres] at h
        obtain ⟨ext, hext⟩ := runUpdateTickers_errs_ext env rest db m ([] ++ [e])
        rw [h] at hext
        simp at hext
    · cases hl0 : lookupMap m s0 with
      | some v =>
        rw [hl0] at h
        exact ih db m h s hsr hnone
      | none =>
        rw [hl0] at h
        cases hres : env.resolve s0 with
        | ok tk =>
          rw [hres] at h
          by_cases hss : s0 = s
          · exact ⟨tk, by rw [← hss]; exact hres⟩
          · have hnone2 : lookupMap (m ++ [(s0, tk, nextTickerId db)]) s = none := by
              rw [lookupMap_append_single m _ s hss]
              exact hnone
            exact ih (insertTickerDb db tk (nextTickerId db)) _ h s hsr hnone2
        | error e =>
          rw [hres] at h
          obtain ⟨ext, hext⟩ := runUpdateTickers_errs_ext env rest db m ([] ++ [e])
          rw [h] at hext
          simp at hext

theorem runUpdateTickers_ok_of_resolvable (env : ImportEnv) :
    ∀ (syms : List String) (db : Db) (m : TickerMap),
      (∀ s ∈ syms, lookupMap m s = none → ∃ tk, env.resolve s = .ok tk) →
      (runUpdateTickers env db m [] syms).2.2 = [] := by
  intro syms
  induction syms with
  | nil => intro db m h; rfl
  | cons s0 rest ih =>
    intro db m h
    unfold runUpdateTickers
    cases hl0 : lookupMap m s0 with
    | some v => exact ih db m (fun s hs => h s (List.mem_cons_of_mem s0 hs))
    | none =>
      obtain ⟨tk, htk⟩ := h s0 (List.mem_cons_self s0 rest) hl0
      rw [htk]
      refine ih (insertTickerDb db tk (nextTickerId db)) _ (fun s hs hnone => ?_)
      refine h s (List.mem_cons_of_mem s0 hs) ?_
      exact lookupMap_append_none m _ s hnone

/-- C5 (amended): (1) the record loop skips a row — changing nothing —
exactly when the watermark is non-zero and the row's sequence number
is at most the watermark; and (2) provided all persisted and imported
sequence numbers are positive, a successful import followed by a
second import of the same rows leaves the persisted transaction set
unchanged and succeeds: every row is skipped by the watermark or
ignored by the keyed insert, so re-importing the same CSV is a no-op
on the transaction table. -/
theorem c5_watermark_idempotent :
    (∀ (env : ImportEnv) (m : TickerMap) (fmap : List (ℤ × ℚ)) (last : ℤ)
        (dbt : List DbTransaction) (st : LoopState) (r : Row),
      last ≠ 0 → r.transaction_no ≤ last →
      importStep env m fmap last dbt st r = .ok st) ∧
    (∀ (env : ImportEnv) (db : Db) (rows : List Row),
      (∀ t ∈ db.transactions, 0 < t.transaction_no) →
      (∀ r ∈ rows, 0 < r.transaction_no) →
      (import_transactions env db rows).2 = .ok () →
      (import_transactions env (import_transactions env db rows).1 rows).1.transactions =
        (import_transactions env db rows).1.transactions ∧
      (import_transactions env (import_transactions env db rows).1 rows).2 = .ok ()) := by
  constructor
  · exact fun env m fmap last dbt st r h0 hle =>
      importStep_skip env m fmap last dbt st r h0 hle
  · intro env db rows hpos1 hpos2 hok
    rcases hru : runUpdateTickers env db (mapFromDb db.tickers) [] (uniqueSymbols rows) with
      ⟨db1, m1, errs1⟩
    cases errs1 with
    | cons e es =>
      exfalso
      have hu : updateTickers env db (uniqueSymbols rows) = (db1, .error e) := by
        unfold updateTickers
        rw [hru]
      unfold import_transactions at hok
      rw [hu] at hok
      simp at hok
    | nil =>
      have hu : updateTickers env db (uniqueSymbols rows) = (db1, .ok m1) := by
        unfold updateTickers
        rw [hru]
      have hdtx : db1.transactions = db.transactions := by
        have h := updateTickers_transactions env db (uniqueSymbols rows)
        rw [hu] at h
        exact h
      have hdtk : ∃ ext, db1.tickers = db.tickers ++ ext := by
        obtain ⟨ext, hext⟩ :=
          runUpdateTickers_tickers_ext env (uniqueSymbols rows) db (mapFromDb db.tickers) []
        rw [hru] at hext
        exact ⟨ext, hext⟩
      cases hrun : runImportRows env m1
          (db1.transactions.map fun t => (t.transaction_no, t.exchange_rate))
          (maxNo db1.transactions) db1.transactions ⟨[], []⟩ rows with
      | error e =>
        exfalso
        unfold import_transactions at hok
        rw [hu] at hok
        simp only [] at hok
        rw [hrun] at hok
        simp at hok
      | ok stF =>
        have hIT : import_transactions env db rows =
            ({db1 with transactions := db1.transactions ++ stF.pending}, .ok ()) := by
          unfold import_transactions
          rw [hu]
          simp only []
          rw [hrun]
        rw [hIT]
        simp only []
        set D1 : Db := {db1 with transactions := db1.transactions ++ stF.pending} with hD1
        have hD1tx : D1.transactions = db1.transactions ++ stF.pending := rfl
        have hD1tk : D1.tickers = db1.tickers := rfl
        have hpend_pos : ∀ t ∈ stF.pending, 0 < t.transaction_no := by
          refine runImportRows_pending_pos env m1 _ _ db1.transactions rows ⟨[], []⟩ stF
            ?_ hpos2 hrun
          intro t ht
          exact absurd ht (List.not_mem_nil t)
        have hdb1_pos : ∀ t ∈ db1.transactions, 0 < t.transaction_no := by
          rw [hdtx]
          exact hpos1
        have hD1_pos : ∀ t ∈ db1.transactions ++ stF.pending, 0 < t.transaction_no := by
          intro t ht
          rcases List.mem_append.mp ht with hm | hm
          · exact hdb1_pos t hm
          · exact hpend_pos t hm
        have hskipAll : ∀ r ∈ rows,
            maxNo (db1.transactions ++ stF.pending) ≠ 0 ∧
            r.transaction_no ≤ maxNo (db1.transactions ++ stF.pending) := by
          intro r hr
          rcases runImportRows_covers env m1 _ _ db1.transactions rows ⟨[], []⟩ stF hrun
              r hr with ⟨hne, hle⟩ | hcov | hcov
          · have hnil : db1.transactions ≠ [] := by
              intro h0
              rw [h0] at hne
              exact hne rfl
            have happ : db1.transactions ++ stF.pending ≠ [] := by
              intro h0
              exact hnil (List.append_eq_nil.mp h0).1
            exact ⟨ne_of_gt (maxNo_pos _ happ hD1_pos),
              le_trans hle (maxNo_le_append _ _ hnil)⟩
          · obtain ⟨t, htm, htn⟩ := (hasNo_iff _ _).mp hcov
            have htm2 : t ∈ db1.transactions ++ stF.pending :=
              List.mem_append_left _ htm
            exact ⟨ne_of_gt (maxNo_pos _ (List.ne_nil_of_mem htm2) hD1_pos),
              htn ▸ le_maxNo_of_mem _ t htm2⟩
          · obtain ⟨t, htm, htn⟩ := (hasNo_iff _ _).mp hcov
            have htm2 : t ∈ db1.transactions ++ stF.pending :=
              List.mem_append_right _ htm
            exact ⟨ne_of_gt (maxNo_pos _ (List.ne_nil_of_mem htm2) hD1_pos),
              htn ▸ le_maxNo_of_mem _ t htm2⟩
        have hres2 : ∀ s ∈ uniqueSymbols rows,
            lookupMap (mapFromDb D1.tickers) s = none → ∃ tk, env.resolve s = .ok tk := by
          intro s hs hnone
          obtain ⟨ext, hext⟩ := hdtk
          have hsplit : mapFromDb D1.tickers = mapFromDb db.tickers ++ mapFromDb ext := by
            rw [hD1tk, hext]
            simp [mapFromDb]
          rw [hsplit] at hnone
          have hnone1 := lookupMap_append_none _ _ s hnone
          exact runUpdateTickers_resolves env (uniqueSymbols rows) db (mapFromDb db.tickers)
            (by rw [hru]) s hs hnone1
        have hok2 := runUpdateTickers_ok_of_resolvable env (uniqueSymbols rows) D1
          (mapFromDb D1.tickers) hres2
        rcases hru2 : runUpdateTickers env D1 (mapFromDb D1.tickers) [] (uniqueSymbols rows)
          with ⟨db2, m2, errs2⟩
        rw [hru2] at hok2
        simp only [] at hok2
        subst hok2
        have hu2 : updateTickers env D1 (uniqueSymbols rows) = (db2, .ok m2) := by
          unfold updateTickers
          rw [hru2]
        have hd2tx : db2.transactions = D1.transactions := by
          have h := updateTickers_transactions env D1 (uniqueSymbols rows)
          rw [hu2] at h
          exact h
        have hskip2 : ∀ r ∈ rows, maxNo db2.transactions ≠ 0 ∧
            r.transaction_no ≤ maxNo db2.transactions := by
          have hmx : maxNo db2.transactions = maxNo (db1.transactions ++ stF.pending) := by
            rw [hd2tx, hD1tx]
          rw [hmx]
          exact hskipAll
        have hloop2 := runImportRows_all_skip env m2
          (db2.transactions.map fun t => (t.transaction_no, t.exchange_rate))
          (maxNo db2.transactions) db2.transactions rows ⟨[], []⟩ hskip2
        unfold import_transactions
        rw [hu2]
        simp only []
        rw [hloop2]
        simp only []
        constructor
        · show db2.transactions ++ (LoopState.mk [] []).pending = D1.transactions
          rw [hd2tx]
          simp
        · trivial

/-- The C5 counterexample environment: no resolution or FX is needed
beyond a constant rate. -/
def c5env : ImportEnv := ⟨"USD", fun _ => .error "unused", fun _ _ _ => .ok 1⟩

/-- The C5 counterexample database: ticker `S` and one persisted
transaction with sequence number 0 — so the highest persisted sequence
number is 0, which the code treats as "no watermark". -/
def c5db : Db :=
  ⟨[⟨1, "S", "S Co", "USD", "X", some 10, none, .Fmp⟩], ["S Co"],
   [⟨0, 5, .Buy, 1, "B", "USD", 1, 1, 10, 0, ⟨1, 10, 0⟩, ⟨0, 0⟩⟩]⟩

/-- The C5 counterexample row: sequence number −1, below the highest
persisted number 0. -/
def c5row : Row := ⟨-1, 0, .Buy, "S", 1, 10, 0, "B", "", ""⟩

/-- C5 (counterexample): a row whose sequence number (−1) is ≤ the
highest persisted sequence number (0) is NOT skipped: because the
watermark guard is `last_transaction_no != 0 && no <= last`, a zero
watermark disables skipping, the row is processed and persisted, and
the transaction table grows from one row to two. -/
theorem c5_counterexample :
    c5row.transaction_no ≤ maxNo c5db.transactions ∧
    (import_transactions c5env c5db [c5row]).2 = .ok () ∧
    (import_transactions c5env c5db [c5row]).1.transactions.length = 2 :=
  ⟨by decide, by decide, by decide⟩

/-- The C5 witness environment: symbol `S` resolves, FX is constant. -/
def c5wenv : ImportEnv :=
  ⟨"USD",
   fun s => if s = "S" then .ok ⟨"S", "S Co", "USD", "X", none, none, .Fmp⟩
            else .error "no",
   fun _ _ _ => .ok 1⟩

/-- The C5 witness row: a one-unit buy with sequence number 1. -/
def c5wrow : Row := ⟨1, 0, .Buy, "S", 1, 10, 0, "B", "", ""⟩

/-- C5 (witness): both parts of `c5_watermark_idempotent` at concrete
inputs — a skipped row is a no-op, and re-importing the one-row CSV
after a successful import leaves the transaction set unchanged. -/
theorem c5_watermark_idempotent_witness :
    importStep c5wenv [] [] 5 [] ⟨[], []⟩ c5wrow = .ok ⟨[], []⟩ ∧
    (∀ t ∈ (Db.mk [] [] []).transactions, 0 < t.transaction_no) ∧
    (∀ r ∈ [c5wrow], 0 < r.transaction_no) ∧
    (import_transactions c5wenv ⟨[], [], []⟩ [c5wrow]).2 = .ok () ∧
    ((import_transactions c5wenv
        (import_transactions c5wenv ⟨[], [], []⟩ [c5wrow]).1 [c5wrow]).1.transactions =
      (import_transactions c5wenv ⟨[], [], []⟩ [c5wrow]).1.transactions ∧
     (import_transactions c5wenv
        (import_transactions c5wenv ⟨[], [], []⟩ [c5wrow]).1 [c5wrow]).2 = .ok ()) :=
  ⟨c5_watermark_idempotent.1 c5wenv [] [] 5 [] ⟨[], []⟩ c5wrow (by decide) (by decide),
   by decide, by decide, by decide,
   c5_watermark_idempotent.2 c5wenv ⟨[], [], []⟩ [c5wrow] (by decide) (by decide)
     (by decide)⟩

/-! ## Claim C9: partial-failure semantics of the price refresh -/

theorem runUpdatePrices_spec (fetch : String → ApiProvider → Except String ℚ) (now : ℤ) :
    ∀ (rem : List (String × ApiProvider)) (cur : List DbTicker) (errs0 : List String),
      (rem.map Prod.fst).Nodup →
      (∀ t ∈ cur, ∀ sa ∈ rem, t.symbol = sa.1 → t.api = sa.2) →
      runUpdatePrices fetch now cur errs0 rem =
        (cur.map (fun t =>
          if (rem.map Prod.fst).contains t.symbol then applyFetch fetch now t else t),
         errs0 ++ rem.filterMap (fun sa =>
           match fetch sa.1 sa.2 with
           | .ok _ => none
           | .error e => some (priceErrMsg sa.1 e))) := by
  intro rem
  induction rem with
  | nil =>
    intro cur errs0 hnd hcons
    simp [runUpdatePrices]
  | cons sa rest ih =>
    intro cur errs0 hnd hcons
    obtain ⟨s, a⟩ := sa
    rw [List.map_cons] at hnd
    obtain ⟨hs_notin, hnd2⟩ := List.nodup_cons.mp hnd
    have hta : ∀ t ∈ cur, t.symbol = s → t.api = a := fun t ht hts =>
      hcons t ht (s, a) (List.mem_cons_self _ _) hts
    have hcontains_false : ((rest.map Prod.fst).contains s) = false := by
      simpa using hs_notin
    unfold runUpdatePrices
    cases hf : fetch s a with
    | ok p =>
      simp only []
      have hcons2 : ∀ t2 ∈ updateTickerPrice cur s p now, ∀ sa2 ∈ rest,
          t2.symbol = sa2.1 → t2.api = sa2.2 := by
        intro t2 ht2 sa2 hsa2 hsym
        unfold updateTickerPrice at ht2
        obtain ⟨t, ht, heq⟩ := List.mem_map.mp ht2
        have hsym2 : t2.symbol = t.symbol := by
          rw [← heq]
          split <;> rfl
        have hapi2 : t2.api = t.api := by
          rw [← heq]
          split <;> rfl
        rw [hapi2]
        exact hcons t ht sa2 (List.mem_cons_of_mem _ hsa2) (hsym2 ▸ hsym)
      rw [ih (updateTickerPrice cur s p now) errs0 hnd2 hcons2]
      unfold updateTickerPrice
      rw [List.map_map]
      refine Prod.ext ?_ ?_
      · simp only []
        refine List.map_congr_left ?_
        intro t ht
        simp only [Function.comp_def]
        by_cases hts : t.symbol = s
        · have hbeq : (t.symbol == s) = true := beq_iff_eq.mpr hts
          have hc1 : ((s :: rest.map Prod.fst).contains t.symbol) = true := by
            simp [List.contains_cons, hts]
          rw [List.map_cons, hc1]
          simp only [hbeq, if_true, ite_true]
          have hc2 : ((rest.map Prod.fst).contains
              ({t with last_price := some p, last_price_updated_at := some now} :
                DbTicker).symbol) = false := by
            show ((rest.map Prod.fst).contains t.symbol) = false
            rw [hts]
            exact hcontains_false
          rw [if_neg (by rw [hc2]; exact Bool.false_ne_true)]
          unfold applyFetch
          rw [show t.api = a from hta t ht hts, hts, hf]
        · have hbeq : (t.symbol == s) = false := beq_eq_false_iff_ne.mpr hts
          rw [List.map_cons]
          simp only [hbeq, Bool.false_eq_true, if_false, ite_false]
          have hc1 : ((s :: rest.map Prod.fst).contains t.symbol) =
              ((rest.map Prod.fst).contains t.symbol) := by
            rw [List.contains_cons, hbeq, Bool.false_or]
          rw [hc1]
      · simp only []
        rw [List.filterMap_cons]
        simp [hf]
    | error e =>
      simp only []
      rw [ih cur (errs0 ++ [priceErrMsg s e]) hnd2
        (fun t ht sa2 hsa2 hsym => hcons t ht sa2 (List.mem_cons_of_mem _ hsa2) hsym)]
      refine Prod.ext ?_ ?_
      · simp only []
        refine List.map_congr_left ?_
        intro t ht
        by_cases hts : t.symbol = s
        · have hc1 : ((s :: rest.map Prod.fst).contains t.symbol) = true := by
            simp [List.contains_cons, hts]
          rw [List.map_cons, hc1]
          have hc2 : ((rest.map Prod.fst).contains t.symbol) = false := by
            rw [hts]
            exact hcontains_false
          rw [if_neg (by rw [hc2]; exact Bool.false_ne_true), if_pos rfl]
          unfold applyFetch
          rw [show t.api = a from hta t ht hts, hts, hf]
        · have hbeq : (t.symbol == s) = false := beq_eq_false_iff_ne.mpr hts
          have hc1 : ((s :: rest.map Prod.fst).contains t.symbol) =
              ((rest.map Prod.fst).contains t.symbol) := by
            rw [List.contains_cons, hbeq, Bool.false_or]
          rw [List.map_cons, hc1]
      · simp only []
        rw [List.filterMap_cons]
        simp [hf, List.append_assoc]

/-- C9: for a refresh over tickers with pairwise-distinct symbols:
every ticker whose price lookup succeeds has `last_price` and
`last_price_updated_at` replaced together (and these writes are in the
returned database even when the call errors); every failing ticker's
row is untouched; a ticker's outcome depends only on its own fetch, so
no sibling failure affects it; the call returns `ok` exactly when no
lookup failed, and otherwise one aggregate error listing exactly the
failing symbols with their causes, in order. -/
theorem c9_refresh_partial_failure (fetch : String → ApiProvider → Except String ℚ)
    (now : ℤ) (db : Db)
    (hnd : (db.tickers.map DbTicker.symbol).Nodup) :
    (update_prices fetch now db).1.tickers = db.tickers.map (applyFetch fetch now) ∧
    (update_prices fetch now db).2 =
      (match db.tickers.filterMap (fun t =>
          match fetch t.symbol t.api with
          | .ok _ => none
          | .error e => some (priceErrMsg t.symbol e)) with
       | [] => .ok ()
       | e :: es => .error (String.intercalate "\n" ("" :: e :: es))) ∧
    (db.tickers.filterMap (fun t =>
        match fetch t.symbol t.api with
        | .ok _ => none
        | .error e => some (priceErrMsg t.symbol e)) = [] ↔
      ∀ t ∈ db.tickers, (fetch t.symbol t.api).isOk = true) := by
  have hnd2 : (((db.tickers.map fun t => (t.symbol, t.api)).map Prod.fst)).Nodup := by
    rw [List.map_map]
    simpa [Function.comp_def] using hnd
  have hcons : ∀ t ∈ db.tickers, ∀ sa ∈ (db.tickers.map fun t => (t.symbol, t.api)),
      t.symbol = sa.1 → t.api = sa.2 := by
    intro t ht sa hsa hsym
    obtain ⟨u, hu, hequ⟩ := List.mem_map.mp hsa
    have hsu : t.symbol = u.symbol := by rw [← hequ] at hsym; exact hsym
    have : t = u := List.inj_on_of_nodup_map hnd ht hu hsu
    rw [this, ← hequ]
  have hspec := runUpdatePrices_spec fetch now (db.tickers.map fun t => (t.symbol, t.api))
    db.tickers [] hnd2 hcons
  have hfst : (db.tickers.map (fun t =>
      if (((db.tickers.map fun t => (t.symbol, t.api)).map Prod.fst)).contains t.symbol
      then applyFetch fetch now t else t)) = db.tickers.map (applyFetch fetch now) := by
    refine List.map_congr_left ?_
    intro t ht
    have hmem : t.symbol ∈ ((db.tickers.map fun t => (t.symbol, t.api)).map Prod.fst) := by
      rw [List.map_map]
      exact List.mem_map.mpr ⟨t, ht, rfl⟩
    have hc : (((db.tickers.map fun t => (t.symbol, t.api)).map Prod.fst)).contains
        t.symbol = true := by simpa using hmem
    rw [hc]
    simp
  have hsnd : ((db.tickers.map fun t => (t.symbol, t.api)).filterMap (fun sa =>
      match fetch sa.1 sa.2 with
      | .ok _ => none
      | .error e => some (priceErrMsg sa.1 e))) =
      db.tickers.filterMap (fun t =>
        match fetch t.symbol t.api with
        | .ok _ => none
        | .error e => some (priceErrMsg t.symbol e)) := by
    rw [List.filterMap_map]
    rfl
  rw [hfst] at hspec
  rw [List.nil_append, hsnd] at hspec
  have h3 : (db.tickers.filterMap (fun t =>
      match fetch t.symbol t.api with
      | .ok _ => none
      | .error e => some (priceErrMsg t.symbol e)) = [] ↔
      ∀ t ∈ db.tickers, (fetch t.symbol t.api).isOk = true) := by
    rw [List.filterMap_eq_nil_iff]
    constructor
    · intro h t ht
      have h2 := h t ht
      cases hf : fetch t.symbol t.api with
      | ok p => rfl
      | error e => rw [hf] at h2; simp at h2
    · intro h t ht
      have h2 := h t ht
      cases hf : fetch t.symbol t.api with
      | ok p => rfl
      | error e => rw [hf] at h2; simp [Except.isOk, Except.toBool] at h2
  refine ⟨?_, ?_, h3⟩
  · unfold update_prices
    rw [hspec]
    cases herr : db.tickers.filterMap (fun t =>
        match fetch t.symbol t.api with
        | .ok _ => none
        | .error e => some (priceErrMsg t.symbol e)) with
    | nil => rfl
    | cons e es => rfl
  · unfold update_prices
    rw [hspec]
    cases herr : db.tickers.filterMap (fun t =>
        match fetch t.symbol t.api with
        | .ok _ => none
        | .error e => some (priceErrMsg t.symbol e)) with
    | nil => rfl
    | cons e es => rfl

/-- The C9 witness fetch oracle: `A` succeeds at price 5, everything
else fails with cause `down`. -/
def c9fetch : String → ApiProvider → Except String ℚ :=
  fun s _ => if s = "A" then .ok 5 else .error "down"

/-- The C9 witness database: tickers `A` and `B`. -/
def c9db : Db :=
  ⟨[⟨1, "A", "A Co", "USD", "X", none, none, .Fmp⟩,
    ⟨2, "B", "B Co", "USD", "X", none, none, .Av⟩], [], []⟩

/-- C9 (witness): `c9_refresh_partial_failure` at a concrete refresh of
two tickers where `A` succeeds and `B` fails. -/
theorem c9_refresh_partial_failure_witness :
    ((c9db.tickers.map DbTicker.symbol).Nodup) ∧
    ((update_prices c9fetch 7 c9db).1.tickers = c9db.tickers.map (applyFetch c9fetch 7) ∧
     (update_prices c9fetch 7 c9db).2 =
       (match c9db.tickers.filterMap (fun t =>
           match c9fetch t.symbol t.api with
           | .ok _ => none
           | .error e => some (priceErrMsg t.symbol e)) with
        | [] => .ok ()
        | e :: es => .error (String.intercalate "\n" ("" :: e :: es))) ∧
     (c9db.tickers.filterMap (fun t =>
         match c9fetch t.symbol t.api with
         | .ok _ => none
         | .error e => some (priceErrMsg t.symbol e)) = [] ↔
       ∀ t ∈ c9db.tickers, (c9fetch t.symbol t.api).isOk = true)) :=
  ⟨by decide, c9_refresh_partial_failure c9fetch 7 c9db (by decide)⟩

end PortfolioTracker
